import Mathlib

/-!
Verification of the go-s2s Splunk-to-Splunk protocol library.

Shallow embedding of the wire codec in `pkg/s2s/codec.go`, the sender
connection logic (`Conn`, `Connect`, `SendEvent`, `writeSignature`), and the
associated data model.

Modelling conventions:
* Go strings and byte slices are `List Nat` (byte sequences; a Go string is an
  arbitrary byte sequence, not necessarily valid UTF-8).
* A reader is modelled by explicit state passing: each decode function takes
  the remaining input `List Nat` and returns `Except Err (result × remaining)`.
* Go `uint32` arithmetic is `Nat` with explicit `% 2^32` at the points where
  the Go code converts to or wraps in `uint32` (`encodeU32`, the `length-1`
  underflow in `DecodeString`).
* `io.ReadFull` semantics: reading `n > 0` bytes from an empty stream fails
  with `io.EOF`; a partial read fails with `io.ErrUnexpectedEOF`.
* Go `time.Time` is embedded as `Option Int`: `none` is the zero instant
  (`IsZero() = true`) and `some t` a non-zero instant whose `Unix()` is `t`.
  The codec only observes `IsZero` and `Unix()` and only constructs times via
  `time.Unix(t, 0)`, so this quotient is exact for the codec (sub-second
  precision of caller-supplied times is not representable; the encoder
  discards it anyway).
-/

namespace S2S

/-- Error taxonomy of the library: `io.EOF`, `io.ErrUnexpectedEOF`,
`ErrInvalidData`, `ErrNilEvent`, `ErrInvalidEndpoint`, `ErrTLSCertificate`. -/
inductive Err where
  | eof
  | unexpectedEof
  | invalidData
  | nilEvent
  | invalidEndpoint
  | tlsCertificate
deriving DecidableEq, Repr

/-- Bytes of the reserved key `"_MetaData:Index"`. -/
def kIndex : List Nat := [95, 77, 101, 116, 97, 68, 97, 116, 97, 58, 73, 110, 100, 101, 120]

/-- Bytes of the reserved key `"MetaData:Host"`. -/
def kHost : List Nat := [77, 101, 116, 97, 68, 97, 116, 97, 58, 72, 111, 115, 116]

/-- Bytes of the reserved key `"MetaData:Source"`. -/
def kSource : List Nat := [77, 101, 116, 97, 68, 97, 116, 97, 58, 83, 111, 117, 114, 99, 101]

/-- Bytes of the reserved key `"MetaData:Sourcetype"`. -/
def kSourcetype : List Nat := [77, 101, 116, 97, 68, 97, 116, 97, 58, 83, 111, 117, 114, 99, 101, 116, 121, 112, 101]

/-- Bytes of the reserved key `"_time"`. -/
def kTime : List Nat := [95, 116, 105, 109, 101]

/-- Bytes of the reserved key `"_done"`. -/
def kDone : List Nat := [95, 100, 111, 110, 101]

/-- Bytes of the reserved key `"_raw"`. -/
def kRaw : List Nat := [95, 114, 97, 119]

/-- Bytes of the wire value marker `"host::"`. -/
def hostPfx : List Nat := [104, 111, 115, 116, 58, 58]

/-- Bytes of the wire value marker `"source::"`. -/
def sourcePfx : List Nat := [115, 111, 117, 114, 99, 101, 58, 58]

/-- Bytes of the wire value marker `"sourcetype::"`. -/
def sourcetypePfx : List Nat := [115, 111, 117, 114, 99, 101, 116, 121, 112, 101, 58, 58]

/-- Bytes of the v2 handshake signature `"--splunk-cooked-mode-v2--"`,
written by `writeSignature` in the sender. -/
def sigV2 : List Nat := [45, 45, 115, 112, 108, 117, 110, 107, 45, 99, 111, 111, 107, 101, 100, 45, 109, 111, 100, 101, 45, 118, 50, 45, 45]

/-- Bytes of the v3 handshake signature `"--splunk-cooked-mode-v3--"`,
recognised by the receiver (`server.go`) but never emitted by the sender. -/
def sigV3 : List Nat := [45, 45, 115, 112, 108, 117, 110, 107, 45, 99, 111, 111, 107, 101, 100, 45, 109, 111, 100, 101, 45, 118, 51, 45, 45]

/-! ### Primitive reader and writer

Go propagates decode errors by early return; this is modelled with
`Except.bind` (written out explicitly so that the reduction behaviour in
proofs is transparent). -/

/-- Big-endian `uint32` serialisation: the value is first reduced mod `2^32`
(the Go code converts with `uint32(...)`), then written as four bytes. -/
def encodeU32 (n : Nat) : List Nat :=
  let m := n % 4294967296
  [m / 16777216 % 256, m / 65536 % 256, m / 256 % 256, m % 256]

/-- Model of `io.ReadFull`: read exactly `n` bytes from the stream.
An empty stream with `n > 0` gives `io.EOF`; a partial read gives
`io.ErrUnexpectedEOF` (these are also the errors `binary.Read` surfaces). -/
def readFull (n : Nat) (s : List Nat) : Except Err (List Nat × List Nat) :=
  if n ≤ s.length then .ok (s.take n, s.drop n)
  else if s.length = 0 then .error .eof
  else .error .unexpectedEof

/-- Model of `binary.Read(r, binary.BigEndian, &x)` for a `uint32`:
read four bytes and combine them big-endian. -/
def readU32 (s : List Nat) : Except Err (Nat × List Nat) :=
  Except.bind (readFull 4 s) fun p =>
    .ok (p.1.foldl (fun a c => a * 256 + c) 0, p.2)

/-- `EncodeString` (codec.go): 4-byte big-endian length `len(s)+1`
(as `uint32`), then the string bytes, then one NUL. -/
def encodeString (s : List Nat) : List Nat :=
  encodeU32 (s.length + 1) ++ s ++ [0]

/-- `DecodeString` (codec.go): read a `uint32` length `L`, then `L-1` payload
bytes, then one byte that must be NUL. `L-1` is computed in `uint32`
arithmetic: `(L + 2^32 - 1) mod 2^32`, which for `L < 2^32` (every value a
4-byte read can produce) equals `2^32 - 1` when `L = 0` and `L - 1`
otherwise — the form used here. -/
def decodeString (s : List Nat) : Except Err (List Nat × List Nat) :=
  Except.bind (readU32 s) fun p =>
    let payloadLen := if p.1 = 0 then 4294967295 else p.1 - 1
    Except.bind (readFull payloadLen p.2) fun q =>
      Except.bind (readFull 1 q.2) fun t =>
        if t.1 ≠ [0] then .error .invalidData
        else .ok (q.1, t.2)

/-- `EncodeKeyValue` (codec.go): two consecutive string encodings. -/
def encodeKeyValue (key value : List Nat) : List Nat :=
  encodeString key ++ encodeString value

/-- `DecodeKeyValue` (codec.go): two consecutive string decodings. -/
def decodeKeyValue (s : List Nat) : Except Err ((List Nat × List Nat) × List Nat) :=
  Except.bind (decodeString s) fun kp =>
    Except.bind (decodeString kp.2) fun vp =>
      .ok ((kp.1, vp.1), vp.2)

/-! ### Event model -/

/-- `Event` (message.go second half / event struct used by codec.go):
`Index`, `Host`, `Source`, `SourceType`, `Raw` are Go strings; `Time` is a
`time.Time` embedded as `Option Int` (see the file header); `Fields` is a
`map[string]string` embedded as an association list in iteration order. -/
structure Event where
  Index : List Nat
  Host : List Nat
  Source : List Nat
  SourceType : List Nat
  Raw : List Nat
  Time : Option Int
  Fields : List (List Nat × List Nat)
deriving DecidableEq, Repr

/-- Zero-valued `Event` with initialised `Fields`, as produced by
`Event.Clear` and used as the decode target by `Event.Read`. -/
def emptyEvent : Event := ⟨[], [], [], [], [], none, []⟩

/-- Model of `time.Unix(t, 0)` under the `Option Int` embedding: the result
is the zero instant (`IsZero`) exactly when `t` equals `-62135596800`
(the Unix value of January 1, year 1, UTC). -/
def timeUnix (t : Int) : Option Int :=
  if t = -62135596800 then none else some t

/-- Decimal digits of a natural number as ASCII bytes. -/
def natToDec (n : Nat) : List Nat :=
  (Nat.toDigits 10 n).map Char.toNat

/-- Model of `fmt.Sprintf("%d", t)` for an `int64`. -/
def intToDec (t : Int) : List Nat :=
  if t < 0 then 45 :: natToDec t.natAbs else natToDec t.toNat

/-- Digit-string accumulator for `strconv.ParseUint(s, 10, _)`:
`none` when a non-digit byte occurs. -/
def parseDigitsAux : List Nat → Nat → Option Nat
  | [], acc => some acc
  | c :: rest, acc =>
    if 48 ≤ c ∧ c ≤ 57 then parseDigitsAux rest (acc * 10 + (c - 48)) else none

/-- Model of `strconv.ParseInt(s, 10, 64)`: optional sign, non-empty decimal
digit string, result within the `int64` range; `none` on any parse or range
error (the codec only observes whether an error occurred). -/
def parseInt64 (s : List Nat) : Option Int :=
  match s with
  | [] => none
  | c :: rest =>
    let signDigits : Bool × List Nat :=
      if c = 43 then (false, rest)
      else if c = 45 then (true, rest)
      else (false, s)
    match signDigits.2 with
    | [] => none
    | digits =>
      match parseDigitsAux digits 0 with
      | none => none
      | some m =>
        if signDigits.1 then
          if m ≤ 9223372036854775808 then some (-(m : Int)) else none
        else
          if m ≤ 9223372036854775807 then some (m : Int) else none

/-! ### Frame codec -/

/-- `getHeaderValues` (codec.go): declared total size and map count.
Sizes are accumulated exactly as in the source: `kvOverhead = 10` is the two
4-byte length words plus the two NULs of a pair; the literal constants are
the lengths of the reserved keys and value markers. Note that the source
accounts for every emitted pair except the `_time` pair. The Go accumulator
is a `uint32`; the reduction mod `2^32` happens where the word is serialised
(`encodeU32`), which agrees with wrapping at every addition. -/
def getHeaderValues (e : Event) : Nat × Nat :=
  let kvOverhead : Nat := 10
  let size : Nat := 4
  let maps : Nat := 0
  let (size, maps) :=
    if e.Index ≠ [] then (size + 15 + e.Index.length + kvOverhead, maps + 1)
    else (size, maps)
  let (size, maps) :=
    if e.Host ≠ [] then (size + 13 + 6 + e.Host.length + kvOverhead, maps + 1)
    else (size, maps)
  let (size, maps) :=
    if e.Source ≠ [] then (size + 15 + 8 + e.Source.length + kvOverhead, maps + 1)
    else (size, maps)
  let (size, maps) :=
    if e.SourceType ≠ [] then (size + 19 + 12 + e.SourceType.length + kvOverhead, maps + 1)
    else (size, maps)
  let (size, maps) := e.Fields.foldl
    (fun (p : Nat × Nat) kv => (p.1 + kv.1.length + kv.2.length + kvOverhead, p.2 + 1))
    (size, maps)
  let (size, maps) := (size + 10 + kvOverhead, maps + 1)
  let (size, maps) := (size + 4 + e.Raw.length + kvOverhead, maps + 1)
  let size := size + 4
  let size := size + 9
  (size, maps)

/-- Sequence of key/value pairs emitted by `EncodeEvent` (codec.go), in the
source order: conditional metadata entries, `Fields` in iteration order,
`_time` when the timestamp is non-zero, then `_done` and `_raw`. -/
def eventPairs (e : Event) : List (List Nat × List Nat) :=
  (if e.Index ≠ [] then [(kIndex, e.Index)] else [])
  ++ (if e.Host ≠ [] then [(kHost, hostPfx ++ e.Host)] else [])
  ++ (if e.Source ≠ [] then [(kSource, sourcePfx ++ e.Source)] else [])
  ++ (if e.SourceType ≠ [] then [(kSourcetype, sourcetypePfx ++ e.SourceType)] else [])
  ++ e.Fields
  ++ (match e.Time with
      | some t => [(kTime, intToDec t)]
      | none => [])
  ++ [(kDone, kDone), (kRaw, e.Raw)]

/-- Concatenated wire encoding of a pair sequence. -/
def encodePairs : List (List Nat × List Nat) → List Nat
  | [] => []
  | kv :: rest => encodeKeyValue kv.1 kv.2 ++ encodePairs rest

/-- `EncodeEvent` (codec.go): size word, map-count word, the emitted pairs,
the 4-byte zero padding, and the `"_raw"` trailer string. The `nil` event
check is not representable (Lean events cannot be nil). -/
def encodeEvent (e : Event) : List Nat :=
  encodeU32 (getHeaderValues e).1
  ++ encodeU32 (getHeaderValues e).2
  ++ encodePairs (eventPairs e)
  ++ encodeU32 0
  ++ encodeString kRaw

/-- Go map assignment `m[k] = v` on the association-list embedding:
replace in place when the key exists, append otherwise. -/
def setField : List (List Nat × List Nat) → List Nat → List Nat → List (List Nat × List Nat)
  | [], k, v => [(k, v)]
  | (k', v') :: rest, k, v =>
    if k' = k then (k, v) :: rest else (k', v') :: setField rest k v

/-- Key-routing switch of `DecodeEvent` (codec.go) for one decoded pair:
reserved keys update the typed attributes (stripping the `host::` /
`source::` / `sourcetype::` markers when present), `_time` is parsed as a
signed 64-bit decimal (`ErrInvalidData` when malformed), `_done` is skipped,
and any other key goes into `Fields`. -/
def applyKV (e : Event) (k v : List Nat) : Except Err Event :=
  if k = kIndex then .ok { e with Index := v }
  else if k = kHost then
    .ok { e with Host := if hostPfx.isPrefixOf v then v.drop hostPfx.length else v }
  else if k = kSource then
    .ok { e with Source := if sourcePfx.isPrefixOf v then v.drop sourcePfx.length else v }
  else if k = kSourcetype then
    .ok { e with SourceType := if sourcetypePfx.isPrefixOf v then v.drop sourcetypePfx.length else v }
  else if k = kTime then
    match parseInt64 v with
    | none => .error .invalidData
    | some t => .ok { e with Time := timeUnix t }
  else if k = kDone then .ok e
  else if k = kRaw then .ok { e with Raw := v }
  else .ok { e with Fields := setField e.Fields k v }

/-- Pair-reading loop of `DecodeEvent`: read `n` key/value pairs, routing
each through `applyKV`. -/
def decodePairs : Nat → Event → List Nat → Except Err (Event × List Nat)
  | 0, e, s => .ok (e, s)
  | n + 1, e, s =>
    Except.bind (decodeKeyValue s) fun p =>
      Except.bind (applyKV e p.1.1 p.1.2) fun e' =>
        decodePairs n e' p.2

/-- Pure accumulation of the key-routing switch over an explicit pair
list: the event that the `DecodeEvent` loop has built after consuming the
given pairs (the stream-reading part is factored out). -/
def applyPairs (e : Event) : List (List Nat × List Nat) → Except Err Event
  | [] => .ok e
  | kv :: rest =>
    Except.bind (applyKV e kv.1 kv.2) fun e' => applyPairs e' rest

/-- `DecodeEvent` (codec.go) on a fresh event (the state `Event.Read`
passes after `Clear`): read the size word (discarded), the map count, that
many pairs, then require a zero padding word and a `"_raw"` trailer. -/
def decodeEvent (s : List Nat) : Except Err Event :=
  Except.bind (readU32 s) fun szp =>
    Except.bind (readU32 szp.2) fun mp =>
      Except.bind (decodePairs mp.1 emptyEvent mp.2) fun ep =>
        Except.bind (readU32 ep.2) fun pp =>
          if pp.1 ≠ 0 then .error .invalidData
          else
            Except.bind (decodeString pp.2) fun tp =>
              if tp.1 ≠ kRaw then .error .invalidData
              else .ok ep.1

/-! ### Sender connection (conn.go) -/

/-- Model of `copy(buf[:], s)` into a zeroed fixed-width buffer of `n`
bytes: the first `min n (len s)` bytes of `s`, NUL-padded to width `n`. -/
def padTo (n : Nat) (s : List Nat) : List Nat :=
  s.take n ++ List.replicate (n - s.length) 0

/-- Model of `strings.Split(s, sep)` for a one-byte separator: the list of
(possibly empty) chunks between separators; the empty string yields `[[]]`. -/
def splitByte (sep : Nat) : List Nat → List (List Nat)
  | [] => [[]]
  | b :: rest =>
    if b = sep then [] :: splitByte sep rest
    else
      match splitByte sep rest with
      | [] => [[b]]
      | p :: ps => (b :: p) :: ps

/-- `writeSignature` (conn.go): split the endpoint on `:`; fail with
`ErrInvalidEndpoint` unless there are exactly two parts; otherwise emit the
fixed-width 128-byte signature (always the v2 literal — the function takes
no version parameter), the 256-byte server name, and the 16-byte management
port, each NUL-padded. -/
def writeSignature (endpoint : List Nat) : Except Err (List Nat) :=
  let endpointParts := splitByte 58 endpoint
  if endpointParts.length ≠ 2 then .error .invalidEndpoint
  else .ok (padTo 128 sigV2
            ++ padTo 256 (endpointParts.getD 0 [])
            ++ padTo 16 (endpointParts.getD 1 []))

/-- Endpoint validation performed by `Connect` (conn.go) before dialing:
`ErrInvalidEndpoint` when the endpoint contains no `:`; `.ok ()` means the
check passed and `Connect` proceeds to `net.DialTimeout` (network I/O). -/
def connectCheck (endpoint : List Nat) : Except Err Unit :=
  if endpoint.contains 58 then .ok () else .error .invalidEndpoint

/-- Bytes written by `Conn.SendEvent` (conn.go) on a fresh connection
(`wroteSignature = false`): the signature preamble followed immediately by
the encoded event frame; no other frame is emitted. -/
def sendEventFresh (endpoint : List Nat) (e : Event) : Except Err (List Nat) :=
  Except.bind (writeSignature endpoint) fun sig =>
    .ok (sig ++ encodeEvent e)

/-! ### Concrete inputs used by the claims -/

/-- Bytes of the endpoint `"test-server:8089"`. -/
def epTestServer : List Nat := [116, 101, 115, 116, 45, 115, 101, 114, 118, 101, 114, 58, 56, 48, 56, 57]

/-- Bytes of the host part `"test-server"`. -/
def nmTestServer : List Nat := [116, 101, 115, 116, 45, 115, 101, 114, 118, 101, 114]

/-- Bytes of the port part `"8089"`. -/
def ptTestServer : List Nat := [56, 48, 56, 57]

/-- Bytes of the endpoint `"a:b:c"` (two colons). -/
def epTwoColons : List Nat := [97, 58, 98, 58, 99]

/-- Bytes of the endpoint `"foo"` (no colon). -/
def epNoColon : List Nat := [102, 111, 111]

/-- Event whose only non-zero attribute is a present timestamp
(epoch second 1704067200, i.e. 2024-01-01T00:00:00Z). -/
def eTimeOnly : Event := { emptyEvent with Time := some 1704067200 }

/-! ### Reader lemmas -/

/-- Computation rule of `Except.bind` on a success value. -/
@[simp] theorem exceptBind_ok {ε α β : Type} (a : α) (f : α → Except ε β) :
    Except.bind (Except.ok a) f = f a := rfl

/-- Computation rule of `Except.bind` on an error value. -/
@[simp] theorem exceptBind_error {ε α β : Type} (e : ε) (f : α → Except ε β) :
    Except.bind (Except.error e : Except ε α) f = Except.error e := rfl

instance {ε α : Type} [DecidableEq ε] [DecidableEq α] : DecidableEq (Except ε α) := fun x y =>
  match x, y with
  | .error a, .error b =>
    if h : a = b then .isTrue (by rw [h]) else .isFalse (fun hc => h (by injection hc))
  | .error _, .ok _ => .isFalse (fun hc => Except.noConfusion hc)
  | .ok _, .error _ => .isFalse (fun hc => Except.noConfusion hc)
  | .ok a, .ok b =>
    if h : a = b then .isTrue (by rw [h]) else .isFalse (fun hc => h (by injection hc))


theorem readFull_exact (a r : List Nat) : readFull a.length (a ++ r) = .ok (a, r) := by
  unfold readFull
  rw [if_pos (by simp)]
  simp [List.take_left, List.drop_left]

theorem readU32_encodeU32 (n : Nat) (r : List Nat) :
    readU32 (encodeU32 n ++ r) = .ok (n % 4294967296, r) := by
  have h4 : (encodeU32 n).length = 4 := by simp [encodeU32]
  unfold readU32
  rw [← h4, readFull_exact]
  simp only [exceptBind_ok, encodeU32, List.foldl]
  congr 2
  omega

theorem decodeString_encodeString (s r : List Nat) (h : s.length + 1 < 4294967296) :
    decodeString (encodeString s ++ r) = .ok (s, r) := by
  have h1 : encodeString s ++ r = encodeU32 (s.length + 1) ++ (s ++ (0 :: r)) := by
    simp [encodeString]
  have hm : (s.length + 1) % 4294967296 = s.length + 1 := Nat.mod_eq_of_lt h
  have h2 := readFull_exact s (0 :: r)
  have h3 : readFull 1 (0 :: r) = .ok ([0], r) := readFull_exact [0] r
  unfold decodeString
  rw [h1, readU32_encodeU32, hm]
  simp [exceptBind_ok, h2, h3]

theorem decodeKeyValue_encodeKeyValue (k v r : List Nat)
    (hk : k.length + 1 < 4294967296) (hv : v.length + 1 < 4294967296) :
    decodeKeyValue (encodeKeyValue k v ++ r) = .ok ((k, v), r) := by
  have h1 : encodeKeyValue k v ++ r = encodeString k ++ (encodeString v ++ r) := by
    simp [encodeKeyValue]
  unfold decodeKeyValue
  rw [h1, decodeString_encodeString k _ hk]
  simp only [exceptBind_ok]
  rw [decodeString_encodeString v r hv]
  simp

/-! ### Prefix-extension lemmas

Every reader that succeeds consuming a prefix of its input behaves the same
when more input follows, returning the extra input as part of the
remainder. -/

theorem readFull_extend (n : Nat) (s x rem r : List Nat)
    (h : readFull n s = .ok (x, rem)) : readFull n (s ++ r) = .ok (x, rem ++ r) := by
  unfold readFull at h ⊢
  split at h
  · next hn =>
    rw [if_pos (by simp only [List.length_append]; omega)]
    injection h with h'
    injection h' with h1 h2
    subst h1
    subst h2
    rw [List.take_append_of_le_length hn, List.drop_append_of_le_length hn]
  · split at h <;> exact Except.noConfusion h

theorem readU32_extend (s : List Nat) (x : Nat) (rem r : List Nat)
    (h : readU32 s = .ok (x, rem)) : readU32 (s ++ r) = .ok (x, rem ++ r) := by
  unfold readU32 at h ⊢
  cases hf : readFull 4 s with
  | error e => rw [hf] at h; exact Except.noConfusion h
  | ok p =>
    rw [hf] at h
    simp only [exceptBind_ok] at h
    injection h with h'
    injection h' with h1 h2
    subst h1
    subst h2
    rw [readFull_extend 4 s p.1 p.2 r hf]
    simp only [exceptBind_ok]

theorem decodeString_extend (s x rem r : List Nat)
    (h : decodeString s = .ok (x, rem)) : decodeString (s ++ r) = .ok (x, rem ++ r) := by
  unfold decodeString at h ⊢
  cases h1 : readU32 s with
  | error e => rw [h1] at h; exact Except.noConfusion h
  | ok p =>
    rw [h1] at h
    rw [readU32_extend s p.1 p.2 r h1]
    simp only [exceptBind_ok] at h ⊢
    cases h2 : readFull (if p.1 = 0 then 4294967295 else p.1 - 1) p.2 with
    | error e => rw [h2] at h; exact Except.noConfusion h
    | ok q =>
      rw [h2] at h
      rw [readFull_extend _ p.2 q.1 q.2 r h2]
      simp only [exceptBind_ok] at h ⊢
      cases h3 : readFull 1 q.2 with
      | error e => rw [h3] at h; exact Except.noConfusion h
      | ok t =>
        rw [h3] at h
        rw [readFull_extend 1 q.2 t.1 t.2 r h3]
        simp only [exceptBind_ok] at h ⊢
        by_cases ht : t.1 = [0]
        · rw [if_neg (show ¬ t.1 ≠ [0] by simp [ht])] at h
          rw [if_neg (show ¬ t.1 ≠ [0] by simp [ht])]
          injection h with h'
          injection h' with hx hrem
          subst hx
          subst hrem
          rfl
        · rw [if_pos ht] at h
          exact Except.noConfusion h

theorem decodeKeyValue_extend (s : List Nat) (kv : List Nat × List Nat) (rem r : List Nat)
    (h : decodeKeyValue s = .ok (kv, rem)) :
    decodeKeyValue (s ++ r) = .ok (kv, rem ++ r) := by
  unfold decodeKeyValue at h ⊢
  cases h1 : decodeString s with
  | error e => rw [h1] at h; exact Except.noConfusion h
  | ok kp =>
    rw [h1] at h
    rw [decodeString_extend s kp.1 kp.2 r h1]
    simp only [exceptBind_ok] at h ⊢
    cases h2 : decodeString kp.2 with
    | error e => rw [h2] at h; exact Except.noConfusion h
    | ok vp =>
      rw [h2] at h
      rw [decodeString_extend kp.2 vp.1 vp.2 r h2]
      simp only [exceptBind_ok] at h ⊢
      injection h with h'
      injection h' with hkv hrem
      subst hkv
      subst hrem
      rfl

theorem decodePairs_extend (n : Nat) (e : Event) (s : List Nat) (ev : Event)
    (rem r : List Nat) (h : decodePairs n e s = .ok (ev, rem)) :
    decodePairs n e (s ++ r) = .ok (ev, rem ++ r) := by
  induction n generalizing e s with
  | zero =>
    unfold decodePairs at h ⊢
    injection h with h'
    injection h' with h1 h2
    subst h1
    subst h2
    rfl
  | succ m ih =>
    unfold decodePairs at h ⊢
    cases h1 : decodeKeyValue s with
    | error e1 => rw [h1] at h; exact Except.noConfusion h
    | ok p =>
      rw [h1] at h
      rw [decodeKeyValue_extend s p.1 p.2 r h1]
      simp only [exceptBind_ok] at h ⊢
      cases h2 : applyKV e p.1.1 p.1.2 with
      | error e2 => rw [h2] at h; exact Except.noConfusion h
      | ok e' =>
        rw [h2] at h
        simp only [exceptBind_ok] at h ⊢
        exact ih e' p.2 h

/-! ### Frame accounting and the timestamp-free round trip

Supporting results: exact size and pair-count accounting for `EncodeEvent`
versus `getHeaderValues` (isolating the missing `_time` accounting), and
the full decode-of-encode round trip for events without a timestamp. -/

theorem encodeString_length (s : List Nat) : (encodeString s).length = s.length + 5 := by
  simp [encodeString, encodeU32]

theorem encodeKeyValue_length (k v : List Nat) :
    (encodeKeyValue k v).length = k.length + v.length + 10 := by
  simp [encodeKeyValue, encodeString_length]
  omega

theorem encodePairs_length (l : List (List Nat × List Nat)) :
    (encodePairs l).length = (l.map (fun kv => kv.1.length + kv.2.length + 10)).sum := by
  induction l with
  | nil => rfl
  | cons kv rest ih => simp [encodePairs, encodeKeyValue_length, ih]

theorem getHeader_foldl (l : List (List Nat × List Nat)) (p : Nat × Nat) :
    l.foldl (fun (q : Nat × Nat) kv => (q.1 + kv.1.length + kv.2.length + 10, q.2 + 1)) p
      = (p.1 + (l.map (fun kv => kv.1.length + kv.2.length + 10)).sum, p.2 + l.length) := by
  induction l generalizing p with
  | nil => simp
  | cons kv rest ih =>
    rw [List.foldl_cons, ih]
    simp [Prod.mk.injEq]
    omega

theorem eventPairs_count_no_time (e : Event) (h : e.Time = none) :
    (eventPairs e).length = (getHeaderValues e).2 := by
  simp only [eventPairs, getHeaderValues, h, getHeader_foldl]
  split_ifs <;> simp <;> omega

theorem eventPairs_count_time (e : Event) (t : Int) (h : e.Time = some t) :
    (eventPairs e).length = (getHeaderValues e).2 + 1 := by
  simp only [eventPairs, getHeaderValues, h, getHeader_foldl]
  split_ifs <;> simp <;> omega

theorem isPrefixOf_append_self (p x : List Nat) : p.isPrefixOf (p ++ x) = true := by
  rw [List.isPrefixOf_iff_prefix]
  exact List.prefix_append p x

theorem applyKV_index (e : Event) (v : List Nat) :
    applyKV e kIndex v = .ok { e with Index := v } := by
  simp [applyKV]

theorem applyKV_host (e : Event) (v : List Nat) :
    applyKV e kHost (hostPfx ++ v) = .ok { e with Host := v } := by
  simp [applyKV, kHost, kIndex, isPrefixOf_append_self, List.drop_left]

theorem applyKV_source (e : Event) (v : List Nat) :
    applyKV e kSource (sourcePfx ++ v) = .ok { e with Source := v } := by
  simp [applyKV, kSource, kIndex, kHost, isPrefixOf_append_self, List.drop_left]

theorem applyKV_sourcetype (e : Event) (v : List Nat) :
    applyKV e kSourcetype (sourcetypePfx ++ v) = .ok { e with SourceType := v } := by
  simp [applyKV, kSourcetype, kIndex, kHost, kSource, isPrefixOf_append_self, List.drop_left]

theorem applyKV_done (e : Event) :
    applyKV e kDone kDone = .ok e := by
  simp [applyKV, kDone, kIndex, kHost, kSource, kSourcetype, kTime]

theorem applyKV_raw (e : Event) (v : List Nat) :
    applyKV e kRaw v = .ok { e with Raw := v } := by
  simp [applyKV, kRaw, kIndex, kHost, kSource, kSourcetype, kTime, kDone]

theorem applyKV_field (e : Event) (k v : List Nat)
    (h : k ≠ kIndex ∧ k ≠ kHost ∧ k ≠ kSource ∧ k ≠ kSourcetype ∧ k ≠ kTime ∧ k ≠ kDone ∧ k ≠ kRaw) :
    applyKV e k v = .ok { e with Fields := setField e.Fields k v } := by
  obtain ⟨h1, h2, h3, h4, h5, h6, h7⟩ := h
  simp [applyKV, h1, h2, h3, h4, h5, h6, h7]

theorem applyPairs_append (l1 l2 : List (List Nat × List Nat)) (e : Event) :
    applyPairs e (l1 ++ l2)
      = Except.bind (applyPairs e l1) fun e1 => applyPairs e1 l2 := by
  induction l1 generalizing e with
  | nil => simp [applyPairs]
  | cons kv rest ih =>
    simp only [List.cons_append, applyPairs]
    cases applyKV e kv.1 kv.2 with
    | error err => simp
    | ok e1 => simp [ih]

theorem decodePairs_encodePairs (ps : List (List Nat × List Nat)) (e e' : Event) (r : List Nat)
    (hb : ∀ kv ∈ ps, kv.1.length + 1 < 4294967296 ∧ kv.2.length + 1 < 4294967296)
    (ha : applyPairs e ps = .ok e') :
    decodePairs ps.length e (encodePairs ps ++ r) = .ok (e', r) := by
  induction ps generalizing e with
  | nil =>
    unfold applyPairs at ha
    injection ha with ha'
    subst ha'
    simp [decodePairs, encodePairs]
  | cons kv rest ih =>
    unfold applyPairs at ha
    cases h1 : applyKV e kv.1 kv.2 with
    | error err => rw [h1] at ha; exact Except.noConfusion ha
    | ok e1 =>
      rw [h1] at ha
      simp only [exceptBind_ok] at ha
      have hbs := hb kv (by simp)
      have h2 : encodePairs (kv :: rest) ++ r = encodeKeyValue kv.1 kv.2 ++ (encodePairs rest ++ r) := by
        simp [encodePairs]
      simp only [List.length_cons]
      unfold decodePairs
      rw [h2, decodeKeyValue_encodeKeyValue kv.1 kv.2 _ hbs.1 hbs.2]
      simp only [exceptBind_ok]
      rw [h1]
      simp only [exceptBind_ok]
      exact ih e1 (fun x hx => hb x (by simp [hx])) ha

theorem setField_append (l : List (List Nat × List Nat)) (k v : List Nat)
    (h : ∀ kv ∈ l, kv.1 ≠ k) : setField l k v = l ++ [(k, v)] := by
  induction l with
  | nil => rfl
  | cons kv rest ih =>
    unfold setField
    rw [if_neg (h kv (by simp))]
    simp only [List.cons_append]
    rw [ih (fun x hx => h x (by simp [hx]))]

theorem applyPairs_fields (fs : List (List Nat × List Nat)) (e : Event)
    (hres : ∀ kv ∈ fs, kv.1 ≠ kIndex ∧ kv.1 ≠ kHost ∧ kv.1 ≠ kSource ∧ kv.1 ≠ kSourcetype
            ∧ kv.1 ≠ kTime ∧ kv.1 ≠ kDone ∧ kv.1 ≠ kRaw)
    (hnd : fs.Pairwise (fun a b => a.1 ≠ b.1))
    (hfresh : ∀ kv ∈ fs, ∀ kv' ∈ e.Fields, kv'.1 ≠ kv.1) :
    applyPairs e fs = .ok { e with Fields := e.Fields ++ fs } := by
  induction fs generalizing e with
  | nil => simp [applyPairs]
  | cons kv rest ih =>
    unfold applyPairs
    rw [applyKV_field e kv.1 kv.2 (hres kv (by simp))]
    simp only [exceptBind_ok]
    rw [setField_append e.Fields kv.1 kv.2 (fun x hx => hfresh kv (by simp) x hx)]
    have hfresh' : ∀ x ∈ rest, ∀ kv' ∈ e.Fields ++ [(kv.1, kv.2)], kv'.1 ≠ x.1 := by
      intro x hx kv' hkv'
      rcases List.mem_append.1 hkv' with h' | h'
      · exact hfresh x (List.mem_cons_of_mem kv hx) kv' h'
      · have hkv2 : kv' = (kv.1, kv.2) := by simpa using h'
        subst hkv2
        exact List.rel_of_pairwise_cons hnd hx
    have hrest := ih { e with Fields := e.Fields ++ [(kv.1, kv.2)] }
      (fun x hx => hres x (List.mem_cons_of_mem kv hx)) hnd.of_cons hfresh'
    rw [hrest]
    congr 1
    simp

theorem applyPairs_index_seg (cur : Event) (idx : List Nat) (h : cur.Index = []) :
    applyPairs cur (if idx ≠ [] then [(kIndex, idx)] else []) = .ok { cur with Index := idx } := by
  by_cases hi : idx = []
  · rw [if_neg (by simp [hi])]
    subst hi
    cases cur
    simp_all [applyPairs]
  · rw [if_pos hi]
    simp [applyPairs, applyKV_index]

theorem applyPairs_host_seg (cur : Event) (v : List Nat) (h : cur.Host = []) :
    applyPairs cur (if v ≠ [] then [(kHost, hostPfx ++ v)] else [])
      = .ok { cur with Host := v } := by
  by_cases hv : v = []
  · rw [if_neg (by simp [hv])]
    subst hv
    cases cur
    simp_all [applyPairs]
  · rw [if_pos hv]
    simp [applyPairs, applyKV_host]

theorem applyPairs_source_seg (cur : Event) (v : List Nat) (h : cur.Source = []) :
    applyPairs cur (if v ≠ [] then [(kSource, sourcePfx ++ v)] else [])
      = .ok { cur with Source := v } := by
  by_cases hv : v = []
  · rw [if_neg (by simp [hv])]
    subst hv
    cases cur
    simp_all [applyPairs]
  · rw [if_pos hv]
    simp [applyPairs, applyKV_source]

theorem applyPairs_sourcetype_seg (cur : Event) (v : List Nat) (h : cur.SourceType = []) :
    applyPairs cur (if v ≠ [] then [(kSourcetype, sourcetypePfx ++ v)] else [])
      = .ok { cur with SourceType := v } := by
  by_cases hv : v = []
  · rw [if_neg (by simp [hv])]
    subst hv
    cases cur
    simp_all [applyPairs]
  · rw [if_pos hv]
    simp [applyPairs, applyKV_sourcetype]

theorem applyPairs_eventPairs (e : Event)
    (hT : e.Time = none)
    (hres : ∀ kv ∈ e.Fields, kv.1 ≠ kIndex ∧ kv.1 ≠ kHost ∧ kv.1 ≠ kSource ∧ kv.1 ≠ kSourcetype
            ∧ kv.1 ≠ kTime ∧ kv.1 ≠ kDone ∧ kv.1 ≠ kRaw)
    (hnd : e.Fields.Pairwise (fun a b => a.1 ≠ b.1)) :
    applyPairs emptyEvent (eventPairs e) = .ok e := by
  obtain ⟨I, H, S, ST, R, T, F⟩ := e
  simp only at hT hres hnd
  subst hT
  simp only [eventPairs]
  simp only [List.append_assoc, List.nil_append]
  rw [applyPairs_append, applyPairs_index_seg emptyEvent I rfl]
  simp only [exceptBind_ok]
  rw [applyPairs_append, applyPairs_host_seg _ H rfl]
  simp only [exceptBind_ok]
  rw [applyPairs_append, applyPairs_source_seg _ S rfl]
  simp only [exceptBind_ok]
  rw [applyPairs_append, applyPairs_sourcetype_seg _ ST rfl]
  simp only [exceptBind_ok]
  rw [applyPairs_append,
      applyPairs_fields F _ hres hnd (fun kv _ kv' hkv' => absurd hkv' (by simp [emptyEvent]))]
  simp only [exceptBind_ok]
  simp [applyPairs, applyKV_done, applyKV_raw, emptyEvent]

theorem mem_if_singleton {α : Type} (c : Prop) [Decidable c] (kv x : α)
    (h : kv ∈ (if c then [x] else ([] : List α))) : kv = x := by
  split at h
  · simpa using h
  · simp at h

theorem eventPairs_bounds (e : Event)
    (hT : e.Time = none)
    (hI : e.Index.length < 2147483648) (hH : e.Host.length < 2147483648)
    (hS : e.Source.length < 2147483648) (hST : e.SourceType.length < 2147483648)
    (hR : e.Raw.length < 2147483648)
    (hF : ∀ kv ∈ e.Fields, kv.1.length < 2147483648 ∧ kv.2.length < 2147483648) :
    ∀ kv ∈ eventPairs e, kv.1.length + 1 < 4294967296 ∧ kv.2.length + 1 < 4294967296 := by
  intro kv hkv
  simp only [eventPairs, hT, List.append_assoc, List.nil_append, List.mem_append,
    List.mem_cons, List.not_mem_nil, or_false, List.mem_singleton] at hkv
  rcases hkv with h | h | h | h | h | h | h
  · rw [mem_if_singleton _ _ _ h]
    refine ⟨by simp [kIndex], by show e.Index.length + 1 < 4294967296; omega⟩
  · rw [mem_if_singleton _ _ _ h]
    refine ⟨by simp [kHost], ?_⟩
    simp [hostPfx]
    omega
  · rw [mem_if_singleton _ _ _ h]
    refine ⟨by simp [kSource], ?_⟩
    simp [sourcePfx]
    omega
  · rw [mem_if_singleton _ _ _ h]
    refine ⟨by simp [kSourcetype], ?_⟩
    simp [sourcetypePfx]
    omega
  · have := hF kv h
    omega
  · rw [h]
    refine ⟨by simp [kDone], by simp [kDone]⟩
  · rw [h]
    refine ⟨by simp [kRaw], by show e.Raw.length + 1 < 4294967296; omega⟩

/-- Supporting theorem for the frame round trip: for every event without a
timestamp whose `Fields` keys avoid the reserved keys and are pairwise
distinct (as a Go map guarantees), with each string below `2^31` bytes and
the pair count below `2^32`, decoding the encoding returns the event
exactly. Together with `c1_roundtrip_fails_on_time_event` this isolates the
missing `_time` accounting as the only obstruction to the claimed round
trip. -/
theorem decode_encode_no_time (e : Event)
    (hT : e.Time = none)
    (hI : e.Index.length < 2147483648) (hH : e.Host.length < 2147483648)
    (hS : e.Source.length < 2147483648) (hST : e.SourceType.length < 2147483648)
    (hR : e.Raw.length < 2147483648)
    (hF : ∀ kv ∈ e.Fields, kv.1.length < 2147483648 ∧ kv.2.length < 2147483648)
    (hres : ∀ kv ∈ e.Fields, kv.1 ≠ kIndex ∧ kv.1 ≠ kHost ∧ kv.1 ≠ kSource ∧ kv.1 ≠ kSourcetype
            ∧ kv.1 ≠ kTime ∧ kv.1 ≠ kDone ∧ kv.1 ≠ kRaw)
    (hnd : e.Fields.Pairwise (fun a b => a.1 ≠ b.1))
    (hc : (getHeaderValues e).2 < 4294967296) :
    decodeEvent (encodeEvent e) = .ok e := by
  have happly := applyPairs_eventPairs e hT hres hnd
  have hbounds := eventPairs_bounds e hT hI hH hS hST hR hF
  have hmaps : (getHeaderValues e).2 = (eventPairs e).length :=
    (eventPairs_count_no_time e hT).symm
  have hdp := decodePairs_encodePairs (eventPairs e) emptyEvent e
    (encodeU32 0 ++ encodeString kRaw) hbounds happly
  have henc : encodeEvent e
      = encodeU32 (getHeaderValues e).1
        ++ (encodeU32 (getHeaderValues e).2
            ++ (encodePairs (eventPairs e) ++ (encodeU32 0 ++ encodeString kRaw))) := by
    simp [encodeEvent, List.append_assoc]
  rw [henc]
  unfold decodeEvent
  rw [readU32_encodeU32]
  simp only [exceptBind_ok]
  rw [readU32_encodeU32, Nat.mod_eq_of_lt hc, hmaps]
  simp only [exceptBind_ok]
  rw [hdp]
  simp only [exceptBind_ok]
  rw [readU32_encodeU32]
  simp only [exceptBind_ok, Nat.zero_mod]
  rw [if_neg (by simp)]
  rw [show decodeString (encodeString kRaw) = .ok (kRaw, []) from by
    simpa using decodeString_encodeString kRaw [] (by simp [kRaw])]
  simp only [exceptBind_ok]
  rw [if_neg (by simp)]

theorem encodeEvent_length_no_time (e : Event) (h : e.Time = none) :
    (encodeEvent e).length = (getHeaderValues e).1 + 4 := by
  simp only [encodeEvent, List.length_append, encodePairs_length, eventPairs, h,
    getHeaderValues, getHeader_foldl]
  split_ifs <;>
    simp [encodeU32, encodeString_length, kIndex, kHost, kSource, kSourcetype, kDone, kRaw,
      hostPfx, sourcePfx, sourcetypePfx] <;>
    omega

theorem encodeEvent_length_time (e : Event) (t : Int) (h : e.Time = some t) :
    (encodeEvent e).length = (getHeaderValues e).1 + 4 + (15 + (intToDec t).length) := by
  simp only [encodeEvent, List.length_append, encodePairs_length, eventPairs, h,
    getHeaderValues, getHeader_foldl]
  split_ifs <;>
    simp [encodeU32, encodeString_length, kIndex, kHost, kSource, kSourcetype, kDone, kRaw,
      kTime, hostPfx, sourcePfx, sourcetypePfx] <;>
    omega

/-! ### Claims -/

set_option maxRecDepth 100000 in
/-- C1: the claimed encode/decode round trip fails on the code for every
event with a present timestamp, because `getHeaderValues` does not count
the `_time` pair that `EncodeEvent` emits. For the event whose only
attribute is `Time = 1704067200`, the decoder reads one pair too few,
interprets the length word of the `"_raw"` key as the padding word (value
5), and fails with `ErrInvalidData` instead of returning the event. -/
theorem c1_roundtrip_fails_on_time_event :
    decodeEvent (encodeEvent eTimeOnly) = .error .invalidData := by decide

set_option maxRecDepth 100000 in
/-- C2: the declared `total_size` does not equal the bytes emitted after it
when a timestamp is present: `getHeaderValues` omits the 25 bytes of the
`_time` pair. For `eTimeOnly` the declared size is 51 while `EncodeEvent`
emits 80 bytes in total, i.e. 76 bytes after the 4-byte size word. -/
theorem c2_total_size_short_on_time_event :
    (getHeaderValues eTimeOnly).1 = 51
    ∧ (encodeEvent eTimeOnly).length = 80
    ∧ (getHeaderValues eTimeOnly).1 ≠ (encodeEvent eTimeOnly).length - 4 := by decide

set_option maxRecDepth 100000 in
/-- C3: the `map_count` word does not count the `_time` entry although
`EncodeEvent` emits it: for `eTimeOnly` the header says 2 pairs while the
frame contains 3 (`_time`, `_done`, `_raw`). -/
theorem c3_map_count_short_on_time_event :
    (getHeaderValues eTimeOnly).2 = 2 ∧ (eventPairs eTimeOnly).length = 3 := by decide

set_option maxRecDepth 100000 in
/-- C4 counterexample: on the first send the sender writes the v2
signature, not the v3 one, and emits no capability frame: the output for
endpoint `"test-server:8089"` is exactly the v2 preamble followed by the
single data frame. -/
theorem c4_counterexample_sender_v2 :
    sendEventFresh epTestServer emptyEvent
      = .ok (padTo 128 sigV2 ++ padTo 256 nmTestServer ++ padTo 16 ptTestServer
             ++ encodeEvent emptyEvent)
    ∧ sigV2 ≠ sigV3 := by
  constructor
  · decide
  · decide

/-- C4 (amended): the sender has no protocol version selection; on the
first send over a fresh connection it writes the 400-byte preamble whose
signature is the v2 literal, followed immediately by the encoded data
frame, with no capability frame in between. -/
theorem c4_first_send_v2_preamble_then_frame (ep nm pt : List Nat) (e : Event)
    (h : splitByte 58 ep = [nm, pt]) :
    sendEventFresh ep e
      = .ok (padTo 128 sigV2 ++ padTo 256 nm ++ padTo 16 pt ++ encodeEvent e) := by
  unfold sendEventFresh writeSignature
  rw [h]
  simp [List.append_assoc]

/-- C4 witness: the amended statement at endpoint `"test-server:8089"`
and the empty event. -/
theorem c4_first_send_witness :
    sendEventFresh epTestServer emptyEvent
      = .ok (padTo 128 sigV2 ++ padTo 256 nmTestServer ++ padTo 16 ptTestServer
             ++ encodeEvent emptyEvent) :=
  c4_first_send_v2_preamble_then_frame epTestServer nmTestServer ptTestServer emptyEvent
    (by decide)

/-- C5: decoding an encoded string returns the string, and decoding an
encoded key/value pair returns the pair, for byte lengths at most
`2^31 - 2`. -/
theorem c5_primitive_roundtrip (s k v : List Nat)
    (hs : s.length ≤ 2147483646) (hk : k.length ≤ 2147483646)
    (hv : v.length ≤ 2147483646) :
    decodeString (encodeString s) = .ok (s, [])
    ∧ decodeKeyValue (encodeKeyValue k v) = .ok ((k, v), []) := by
  constructor
  · simpa using decodeString_encodeString s [] (by omega)
  · simpa using decodeKeyValue_encodeKeyValue k v [] (by omega) (by omega)

/-- C5 witness: the round trip at `s = "hi"`, `k = "k"`, `v = "v"`. -/
theorem c5_primitive_roundtrip_witness :
    decodeString (encodeString [104, 105]) = .ok ([104, 105], [])
    ∧ decodeKeyValue (encodeKeyValue [107] [118]) = .ok (([107], [118]), []) :=
  c5_primitive_roundtrip [104, 105] [107] [118] (by decide) (by decide) (by decide)

set_option maxRecDepth 100000 in
/-- C6: on the length word `L = 0`, `DecodeString` does not fail with
`ErrInvalidData`; it computes `L-1` with `uint32` wraparound (2^32 - 1) and
attempts to read that many bytes, failing with `io.EOF` on the empty
remainder. -/
theorem c6_length_zero_not_invalid_data :
    decodeString [0, 0, 0, 0] = .error .eof
    ∧ decodeString [0, 0, 0, 0] ≠ .error .invalidData := by decide

/-- C7 counterexample: the endpoint `"a:b:c"` does not contain exactly one
colon, yet `Connect`'s validation passes (it only checks that some colon is
present), so `Connect` proceeds to dial instead of returning
`ErrInvalidEndpoint` before any I/O. -/
theorem c7_counterexample_two_colons :
    epTwoColons.count 58 = 2 ∧ connectCheck epTwoColons = .ok () := by decide

/-- C7 (amended): `Connect` rejects, before any I/O, exactly the endpoints
with no colon; an endpoint containing a colon passes `Connect`'s check
(and is dialed), and endpoints that do not split into exactly two parts
are rejected with `ErrInvalidEndpoint` only by `writeSignature` during the
first send. -/
theorem c7_endpoint_validation (ep : List Nat) :
    (ep.contains 58 = false → connectCheck ep = .error .invalidEndpoint)
    ∧ (ep.contains 58 = true → connectCheck ep = .ok ())
    ∧ ((splitByte 58 ep).length ≠ 2 → writeSignature ep = .error .invalidEndpoint) := by
  refine ⟨fun h => ?_, fun h => ?_, fun h => ?_⟩
  · unfold connectCheck
    rw [h]
    simp
  · unfold connectCheck
    rw [h]
    simp
  · unfold writeSignature
    rw [if_pos h]

/-- C7 witness: `"foo"` is rejected by `Connect`; `"a:b:c"` is rejected by
`writeSignature`. -/
theorem c7_endpoint_validation_witness :
    connectCheck epNoColon = .error .invalidEndpoint
    ∧ writeSignature epTwoColons = .error .invalidEndpoint :=
  ⟨(c7_endpoint_validation epNoColon).1 (by decide),
   (c7_endpoint_validation epTwoColons).2.2 (by decide)⟩

/-- C8: after the pair-reading loop succeeds, `DecodeEvent` fails with
`ErrInvalidData` when the padding word is non-zero; with zero padding it
fails with `ErrInvalidData` when the trailer string is not `"_raw"`, and
succeeds when the padding is zero and the trailer is `"_raw"`. -/
theorem c8_padding_and_trailer_checks (sz n : Nat) (body : List Nat) (ev : Event)
    (pad : Nat) (t : List Nat) (hn : n < 4294967296) (hpad : pad < 4294967296)
    (ht : t.length + 1 < 4294967296)
    (hbody : decodePairs n emptyEvent body = .ok (ev, [])) :
    decodeEvent (encodeU32 sz ++ (encodeU32 n ++ (body ++ (encodeU32 pad ++ encodeString t))))
      = if pad ≠ 0 then .error .invalidData
        else if t ≠ kRaw then .error .invalidData
        else .ok ev := by
  have hb := decodePairs_extend n emptyEvent body ev [] (encodeU32 pad ++ encodeString t) hbody
  simp only [List.nil_append] at hb
  unfold decodeEvent
  rw [readU32_encodeU32]
  simp only [exceptBind_ok]
  rw [readU32_encodeU32, Nat.mod_eq_of_lt hn]
  simp only [exceptBind_ok]
  rw [hb]
  simp only [exceptBind_ok]
  rw [readU32_encodeU32, Nat.mod_eq_of_lt hpad]
  simp only [exceptBind_ok]
  by_cases hp : pad = 0
  · subst hp
    simp only [if_neg (show ¬ (0 : Nat) ≠ 0 by simp)]
    rw [show decodeString (encodeString t) = .ok (t, []) from by
      simpa using decodeString_encodeString t [] ht]
    simp only [exceptBind_ok]
  · simp only [if_pos hp]

/-- C8 witness: the success branch at the empty pair block with zero
padding and a `"_raw"` trailer. -/
theorem c8_padding_and_trailer_witness :
    decodeEvent (encodeU32 0 ++ (encodeU32 0 ++ ([] ++ (encodeU32 0 ++ encodeString kRaw))))
      = .ok emptyEvent := by
  simpa using c8_padding_and_trailer_checks 0 0 [] emptyEvent 0 kRaw
    (by norm_num) (by norm_num) (by decide) (by decide)

set_option maxRecDepth 100000 in
/-- C9: `writeSignature` on `"test-server:8089"` produces exactly the three
NUL-padded fixed-width regions of 128, 256 and 16 bytes holding the v2
signature, `"test-server"` and `"8089"`, 400 bytes in total. -/
theorem c9_write_signature_layout :
    writeSignature epTestServer
      = .ok (padTo 128 sigV2 ++ padTo 256 nmTestServer ++ padTo 16 ptTestServer)
    ∧ (padTo 128 sigV2 ++ padTo 256 nmTestServer ++ padTo 16 ptTestServer).length = 400 := by
  constructor
  · decide
  · decide

/-- C10: `DecodeEvent` never uses the declared `total_size`: two input
streams that agree after their first four bytes decode to the same
outcome. -/
theorem c10_decode_ignores_total_size (a b rest : List Nat)
    (ha : a.length = 4) (hb : b.length = 4) :
    decodeEvent (a ++ rest) = decodeEvent (b ++ rest) := by
  have hfa : readFull 4 (a ++ rest) = .ok (a, rest) := by
    rw [← ha]; exact readFull_exact a rest
  have hfb : readFull 4 (b ++ rest) = .ok (b, rest) := by
    rw [← hb]; exact readFull_exact b rest
  unfold decodeEvent readU32
  rw [hfa, hfb]
  simp only [exceptBind_ok]

/-- C10 witness: two frames differing only in the `total_size` word decode
identically. -/
theorem c10_decode_ignores_total_size_witness :
    decodeEvent ([0, 0, 0, 0] ++ [0, 0, 0, 0]) = decodeEvent ([9, 9, 9, 9] ++ [0, 0, 0, 0]) :=
  c10_decode_ignores_total_size [0, 0, 0, 0] [9, 9, 9, 9] [0, 0, 0, 0] (by decide) (by decide)

end S2S
